import Mathlib

/-!
Verification of the BNE hemeroteca data-collection pipeline.

This file is a shallow embedding of the parts of the repository that the
specification talks about:

* `src/data_utils.py` (`parse_date_range` and its `strptime` helper),
* `issues/scrape_issues.py` (`get_existing_issue_uuids`, the checkpoint
  truncation in `scrape_issues`, `sanitize_dirname`,
  `parse_issue_name_parts`, `download_pdf`, `process_issue_download` and
  the per-page dedup/download loop of `scrape_issues`),
* `issues/paginate_issues.py` (`process_pdf`).

Text that the scripts manipulate character by character is modelled as
`List Char`; the Python string primitives used by the source (`strip`,
`split`, `replace`, `lower`, `in`, glob matching) are defined below from
their documented behaviour. Fallible external effects (file reads,
network requests, browser interaction) are modelled by explicit outcome
data so that the error-handling paths of the source are represented
faithfully: an exception raised by an external call corresponds to an
explicit `error`/`raises` value in the environment.
-/

/-- Python `str.lstrip` for a fixed character class: drop matching leading
characters. -/
def dropLeadingP (p : Char → Bool) (l : List Char) : List Char :=
  l.dropWhile p

/-- Python `str.rstrip` for a fixed character class: drop matching trailing
characters. -/
def dropTrailingP (p : Char → Bool) : List Char → List Char
  | [] => []
  | c :: rest =>
    let r := dropTrailingP p rest
    if r.isEmpty && p c then [] else c :: r

/-- Python `str.strip()` (whitespace removed from both ends). -/
def pyStrip (l : List Char) : List Char :=
  dropTrailingP Char.isWhitespace (dropLeadingP Char.isWhitespace l)

/-- Python `str.rstrip('-')`. -/
def rstripDash (l : List Char) : List Char :=
  dropTrailingP (fun c => c == '-') l

/-- Python `str.lstrip('-')`. -/
def lstripDash (l : List Char) : List Char :=
  dropLeadingP (fun c => c == '-') l

/-- Python `str.split(sep)` for a one-character separator: the result is
always nonempty, and empty pieces are kept. -/
def splitOnChar (sep : Char) : List Char → List (List Char)
  | [] => [[]]
  | c :: rest =>
    let r := splitOnChar sep rest
    if c == sep then [] :: r
    else
      match r with
      | [] => [[c]]
      | h :: t => (c :: h) :: t

/-- Re-join split pieces with `'-'`; together with `splitOnChar` this models
Python `str.split('-', 1)` (head piece, tail pieces re-joined). -/
def joinWithDash : List (List Char) → List Char
  | [] => []
  | [x] => x
  | x :: y :: rest => x ++ '-' :: joinWithDash (y :: rest)

/-- Numeric value of a list of decimal digit characters. -/
def digitsVal (l : List Char) : Nat :=
  l.foldl (fun acc c => 10 * acc + (c.toNat - '0'.toNat)) 0

/-- Gregorian leap-year rule used by Python's `datetime`. -/
def isLeapYear (y : Nat) : Bool :=
  y % 4 == 0 && (y % 100 != 0 || y % 400 == 0)

/-- Number of days of month `m` in year `y` (as validated by `datetime`). -/
def daysInMonth (y m : Nat) : Nat :=
  if m == 2 then (if isLeapYear y then 29 else 28)
  else if m == 4 || m == 6 || m == 9 || m == 11 then 30
  else 31

/-- A `datetime.datetime` value as far as this code uses it (midnight time
part omitted). -/
structure PyDate where
  year : Nat
  month : Nat
  day : Nat
deriving DecidableEq, Repr

/-- Model of `datetime.strptime(s, "%d/%m/%Y")`: `%d` and `%m` match one or
two digits, `%Y` one to four digits, the `/` separators must be present
literally, the whole string must be consumed, and the three numbers must
form a valid calendar date. Returns `none` where Python raises
`ValueError`. -/
def strptimeDMY (l : List Char) : Option PyDate :=
  match splitOnChar '/' l with
  | [d, m, y] =>
    if d.all Char.isDigit ∧ m.all Char.isDigit ∧ y.all Char.isDigit ∧
        (d.length = 1 ∨ d.length = 2) ∧ (m.length = 1 ∨ m.length = 2) ∧
        1 ≤ y.length ∧ y.length ≤ 4 then
      let dv := digitsVal d
      let mv := digitsVal m
      let yv := digitsVal y
      if 1 ≤ yv ∧ yv ≤ 9999 ∧ 1 ≤ mv ∧ mv ≤ 12 ∧ 1 ≤ dv ∧ dv ≤ daysInMonth yv mv then
        some ⟨yv, mv, dv⟩
      else none
    else none
  | _ => none

/-- Model of `parse_date_range` from `src/data_utils.py`. The argument is
`none` when the pandas cell is missing (`pd.isna`), otherwise the cell
text. -/
def parse_date_range (ds : Option (List Char)) : Option PyDate × Option PyDate :=
  match ds with
  | none => (none, none)
  | some raw =>
    let s := pyStrip raw
    if s = [] then (none, none)
    else if s.getLast? = some '-' then
      match strptimeDMY (rstripDash s) with
      | some d => (some d, none)
      | none => (none, none)
    else if s.head? = some '-' then
      match strptimeDMY (lstripDash s) with
      | some d => (none, some d)
      | none => (none, none)
    else if s.contains '-' then
      match splitOnChar '-' s with
      | [] => (none, none)
      | p0 :: rest =>
        let startStr := pyStrip p0
        let endStr := pyStrip (joinWithDash rest)
        let dStart := if startStr = [] then none else strptimeDMY startStr
        let dEnd := if endStr = [] then none else strptimeDMY endStr
        (dStart, dEnd)
    else
      match strptimeDMY s with
      | some d => (some d, some d)
      | none => (none, none)

/-- Characters replaced by `'-'` in `sanitize_dirname`
(the regex class from the source). -/
def isBadPathChar (c : Char) : Bool :=
  c == '\\' || c == '/' || c == '*' || c == '?' || c == ':' ||
  c == '"' || c == '<' || c == '>' || c == '|'

/-- Characters matched by the collapsing regex class of `sanitize_dirname`
(dashes and whitespace). -/
def isDashOrSpace (c : Char) : Bool :=
  c == '-' || c.isWhitespace

/-- One character of the first substitution of `sanitize_dirname`. -/
def replaceBadChar (c : Char) : Char :=
  if isBadPathChar c then '-' else c

/-- The second substitution of `sanitize_dirname`: every maximal run of
dashes and whitespace becomes a single `'-'`. -/
def collapseRuns : List Char → List Char
  | [] => []
  | [c] => [if isDashOrSpace c then '-' else c]
  | a :: b :: rest =>
    if isDashOrSpace a && isDashOrSpace b then collapseRuns (b :: rest)
    else (if isDashOrSpace a then '-' else a) :: collapseRuns (b :: rest)

/-- Python `str.strip('-')`. -/
def stripDashes (l : List Char) : List Char :=
  dropTrailingP (fun c => c == '-') (dropLeadingP (fun c => c == '-') l)

/-- Model of `sanitize_dirname` from `issues/scrape_issues.py`. -/
def sanitize_dirname (name : List Char) : List Char :=
  if name = [] then "unknown".toList
  else stripDashes (collapseRuns (name.map replaceBadChar))

/-- The collection path segment as computed in `scrape_issues`
(sanitize, then fall back to a literal if the result is empty). -/
def collectionSafe (collection : List Char) : List Char :=
  let s := sanitize_dirname collection
  if s = [] then "unknown_collection".toList else s

/-- The ISSN path segment as computed in `scrape_issues`. -/
def issnSafe (issn : List Char) : List Char :=
  let s := sanitize_dirname issn
  if s = [] then "unknown_issn".toList else s

/-- No two adjacent `'-'` characters occur in the list. -/
def noDoubleDash : List Char → Bool
  | [] => true
  | [_] => true
  | a :: b :: rest => !(a == '-' && b == '-') && noDoubleDash (b :: rest)

/-- One row yielded by `csv.DictReader` over `data/issues/list.csv`, with
the two columns that `get_existing_issue_uuids` looks at. A field is
`none` when the column is absent from the row (or carries `None`), and
`some ""` when it is present but empty; the Python truthiness test
`"col" in row and row["col"]` is false in both degenerate cases. -/
structure CsvRow where
  issue_uuid : Option String
  publication_issn : Option String
deriving DecidableEq, Repr

/-- Outcome of iterating the issues CSV inside the `try` block of
`get_existing_issue_uuids`: the rows of the file in order, and, when
reading raises an exception, the number of rows successfully yielded
before it (`none` when the whole file reads cleanly). `failsAfter = some 0`
models a file that cannot even be opened or whose first row already
raises. -/
structure ReadOutcome where
  rows : List CsvRow
  failsAfter : Option Nat
deriving DecidableEq, Repr

/-- Set insertion on the list model of a Python `set` (no-op when the
element is already present). -/
def addKey (u : String) (l : List String) : List String :=
  if u ∈ l then l else l ++ [u]

/-- One iteration of the row loop of `get_existing_issue_uuids`. -/
def scanRow (st : List String × Option String) (r : CsvRow) :
    List String × Option String :=
  let keys := match r.issue_uuid with
    | some s => if s ≠ "" then addKey s st.1 else st.1
    | none => st.1
  let ck := match r.publication_issn with
    | some s => if s ≠ "" then some s else st.2
    | none => st.2
  (keys, ck)

/-- Model of `get_existing_issue_uuids` from `issues/scrape_issues.py`:
`none` input means the store file does not exist; otherwise the rows read
before a possible exception are folded into the key set and checkpoint
accumulated so far, which the function returns in every case. -/
def get_existing_issue_uuids (file : Option ReadOutcome) :
    List String × Option String :=
  match file with
  | none => ([], none)
  | some f =>
    let consumed := match f.failsAfter with
      | none => f.rows
      | some n => f.rows.take n
    consumed.foldl scanRow ([], none)

/-- Modelled from the spec claim wording of C3 (for comparison with the
code): the set of every value of the dedup-key column, and the checkpoint
column value taken from the last row read. -/
def getExistingSpecClaim (rows : List CsvRow) : List String × Option String :=
  (rows.foldl
      (fun acc r => match r.issue_uuid with
        | some s => addKey s acc
        | none => acc) [],
    rows.getLast?.bind (fun r => r.publication_issn))

/-- Whether a row carries a present, nonempty `publication_issn`. -/
def truthyIssn (r : CsvRow) : Bool :=
  match r.publication_issn with
  | some s => s ≠ ""
  | none => false

/-- The last row of the store carrying a nonempty `publication_issn`,
read declaratively (scan from the end). -/
def lastTruthyIssn (rows : List CsvRow) : Option String :=
  (rows.reverse.find? truthyIssn).bind (fun r => r.publication_issn)

/-- A publication row as loaded by `load_publications`. -/
structure Publication where
  uuid : String
  issn : String
  collection : String
  title : String
  issues_link : String
deriving DecidableEq, Repr

/-- Index of the first publication whose `issn` equals the checkpoint
(the `next((i for i, p in enumerate(publications) ...), -1)` expression,
with `none` for the `-1` sentinel). -/
def firstIssnIdx (c : String) : List Publication → Option Nat
  | [] => none
  | p :: rest => if p.issn = c then some 0 else (firstIssnIdx c rest).map (· + 1)

/-- The checkpoint-truncation step of `scrape_issues`: when a truthy
checkpoint is found in the list, the list is resliced from that index on;
otherwise it is returned unchanged. -/
def resumePublications (checkpoint : Option String) (pubs : List Publication) :
    List Publication :=
  match checkpoint with
  | none => pubs
  | some c =>
    if c = "" then pubs
    else
      match firstIssnIdx c pubs with
      | some i => pubs.drop i
      | none => pubs

/-- Environment of one `download_pdf` call: the outcome of the primary
streamed request (`error` when `requests.get` or the body write raises,
otherwise the response status code) and the outcome of the interaction
fallback (`error` when the click path raises, `ok (some f)` when the poll
loop detects a freshly modified file `f`, `ok none` when the poll loop
times out). -/
structure DownloadEnv where
  primary : Except String Nat
  fallback : Except String (Option String)
deriving Repr

/-- Whether the primary streamed retrieval raised an exception. -/
def primaryRaised (env : DownloadEnv) : Bool :=
  match env.primary with
  | .error _ => true
  | .ok _ => false

/-- Model of `download_pdf` from `issues/scrape_issues.py`. The first
component is the returned success flag; the second records whether the
interaction-based fallback branch was entered. The function is total:
every exception of the environment is handled inside, which models the
source's `try`/`except` layers returning `False` instead of raising. -/
def download_pdf (env : DownloadEnv) : Bool × Bool :=
  match env.primary with
  | .ok status => if status = 200 then (true, false) else (false, false)
  | .error _ =>
    match env.fallback with
    | .ok (some _) => (true, true)
    | .ok none => (false, true)
    | .error _ => (false, true)

/-- Python `text.replace(pat, "")`: remove every leftmost, non-overlapping
occurrence of `pat` (no-op when `pat` is empty, a case the source never
hits). -/
def removeSub (pat : List Char) : List Char → List Char
  | [] => []
  | c :: rest =>
    if pat.isPrefixOf (c :: rest) ∧ pat ≠ [] then
      removeSub pat (rest.drop (pat.length - 1))
    else
      c :: removeSub pat rest
termination_by l => l.length
decreasing_by
  · simp only [List.length_drop, List.length_cons]
    omega
  · simp only [List.length_cons]
    omega

/-- Python `pat in text` (substring containment). -/
def containsSub (pat : List Char) : List Char → Bool
  | [] => pat.isEmpty
  | c :: rest => pat.isPrefixOf (c :: rest) || containsSub pat rest

/-- Python `str.lower()`, character by character (sufficient for the ASCII
marker tokens the source tests for). -/
def lowerChars (l : List Char) : List Char :=
  l.map Char.toLower

/-- The marker token of the page-count field. -/
def paginasPat : List Char := "páginas".toList

/-- The first marker token of the issue-number field. -/
def ndegPat : List Char := "n.º".toList

/-- The second marker token of the issue-number field. -/
def nordPat : List Char := "nº".toList

/-- One `span.name-part` element as `parse_issue_name_parts` observes it:
its text, whether it sits in a `<strong>` context, and whether accessing
it raises a (stale-element style) exception. -/
structure NamePart where
  text : List Char
  isStrong : Bool
  raises : Bool
deriving DecidableEq, Repr

/-- The four fields returned by `parse_issue_name_parts`. -/
structure IssueFields where
  issue_name : List Char
  date : List Char
  number : List Char
  pages : List Char
deriving DecidableEq, Repr

/-- The initial all-empty field record. -/
def emptyFields : IssueFields := ⟨[], [], [], []⟩

/-- One iteration of the part loop of `parse_issue_name_parts`. -/
def updateFields (acc : IssueFields) (p : NamePart) : IssueFields :=
  let text := pyStrip p.text
  if p.isStrong then { acc with issue_name := text }
  else if containsSub paginasPat (lowerChars text) then
    { acc with pages := pyStrip (removeSub paginasPat text) }
  else if containsSub ndegPat (lowerChars text) || containsSub nordPat (lowerChars text) then
    { acc with number := pyStrip (removeSub nordPat (removeSub ndegPat text)) }
  else if acc.date = [] ∧ 4 ≤ text.length ∧ text.any Char.isDigit then
    { acc with date := text }
  else acc

/-- The part loop with explicit exception propagation: `none` when some
part access raises before the loop finishes. -/
def parsePartsGo : List NamePart → IssueFields → Option IssueFields
  | [], acc => some acc
  | p :: rest, acc =>
    if p.raises then none
    else parsePartsGo rest (updateFields acc p)

/-- Model of `parse_issue_name_parts` from `issues/scrape_issues.py`: the
whole loop runs under one `try`, and any exception degrades the entire
result to four empty strings. -/
def parse_issue_name_parts (parts : List NamePart) : IssueFields :=
  match parsePartsGo parts emptyFields with
  | some f => f
  | none => emptyFields

/-- Field-matching predicate of the name field (a strong part). -/
def strongQ (p : NamePart) : Bool := p.isStrong

/-- Field-matching predicate of the pages field. -/
def pagesQ (p : NamePart) : Bool :=
  !p.isStrong && containsSub paginasPat (lowerChars (pyStrip p.text))

/-- Field-matching predicate of the number field. -/
def numberQ (p : NamePart) : Bool :=
  !p.isStrong && !containsSub paginasPat (lowerChars (pyStrip p.text)) &&
    (containsSub ndegPat (lowerChars (pyStrip p.text)) ||
      containsSub nordPat (lowerChars (pyStrip p.text)))

/-- Field-matching predicate of the date field. -/
def dateQ (p : NamePart) : Bool :=
  !p.isStrong && !containsSub paginasPat (lowerChars (pyStrip p.text)) &&
    !(containsSub ndegPat (lowerChars (pyStrip p.text)) ||
      containsSub nordPat (lowerChars (pyStrip p.text))) &&
    decide (4 ≤ (pyStrip p.text).length) && (pyStrip p.text).any Char.isDigit

/-- Value extracted for the name field from one matching part. -/
def nameVal (p : NamePart) : List Char := pyStrip p.text

/-- Value extracted for the pages field from one matching part. -/
def pagesVal (p : NamePart) : List Char :=
  pyStrip (removeSub paginasPat (pyStrip p.text))

/-- Value extracted for the number field from one matching part. -/
def numberVal (p : NamePart) : List Char :=
  pyStrip (removeSub nordPat (removeSub ndegPat (pyStrip p.text)))

/-- Value extracted for the date field from one matching part. -/
def dateVal (p : NamePart) : List Char := pyStrip p.text

/-- Declarative reading of the name field: the last strong part wins. -/
def nameOf (parts : List NamePart) : List Char :=
  match (parts.filter strongQ).getLast? with
  | some p => nameVal p
  | none => []

/-- Declarative reading of the pages field: the last matching part wins. -/
def pagesOf (parts : List NamePart) : List Char :=
  match (parts.filter pagesQ).getLast? with
  | some p => pagesVal p
  | none => []

/-- Declarative reading of the number field: the last matching part wins. -/
def numberOf (parts : List NamePart) : List Char :=
  match (parts.filter numberQ).getLast? with
  | some p => numberVal p
  | none => []

/-- Declarative reading of the date field: the first matching part wins. -/
def dateOf (parts : List NamePart) : List Char :=
  match (parts.filter dateQ).head? with
  | some p => dateVal p
  | none => []

/-- Name of the per-page output file of `process_pdf`
(`{pdf_stem}-p{page_num}.pdf`). -/
def pageFileName (stem : List Char) (i : Nat) : List Char :=
  stem ++ '-' :: 'p' :: (Nat.toDigits 10 i ++ ".pdf".toList)

/-- Whether a file name matches the glob pattern
`{pdf_stem}-p*.pdf` used by the resume check of `process_pdf`. -/
def matchesPageGlob (stem : List Char) (f : List Char) : Bool :=
  (stem ++ ['-', 'p']).isPrefixOf f &&
    (".pdf".toList).isSuffixOf (f.drop (stem.length + 2))

/-- The destination directory of one source PDF as `process_pdf` sees it:
whether it exists and which file names it contains. -/
structure DestDir where
  dirExists : Bool
  files : List (List Char)
deriving DecidableEq, Repr

/-- The names `process_pdf` would create for an `n`-page source. -/
def expectedPageNames (stem : List Char) (n : Nat) : List (List Char) :=
  (List.range n).map (fun i => pageFileName stem (i + 1))

/-- One iteration of the page-writing loop of `process_pdf`: skip the page
if its output file already exists, otherwise write it (the written names
are accumulated in the second component). -/
def writePageStep (st : DestDir × List (List Char)) (name : List Char) :
    DestDir × List (List Char) :=
  if name ∈ st.1.files then st
  else ({ st.1 with files := st.1.files ++ [name] }, st.2 ++ [name])

/-- Model of `process_pdf` from `issues/paginate_issues.py` for a readable
source PDF of `numPages` pages: returns the final state of the
destination directory and the list of page files written, in order.
The first branch is the whole-PDF skip check (directory exists and the
glob count equals the page count); otherwise `os.makedirs` marks the
directory as existing and the loop writes the missing pages. -/
def process_pdf (stem : List Char) (numPages : Nat) (d : DestDir) :
    DestDir × List (List Char) :=
  if d.dirExists = true ∧ (d.files.filter (matchesPageGlob stem)).length = numPages then
    (d, [])
  else
    (expectedPageNames stem numPages).foldl writePageStep
      ({ d with dirExists := true }, [])

/-- Metadata and environment of one listing article (`article.media`) as
the per-page loop of `scrape_issues` observes it: the four extracted
metadata fields, the download link (`""` when no `Descargar` anchor was
found), the fresh `uuid.uuid4()` value the run would draw for it, and
whether `download_pdf` would succeed if dispatched. -/
structure Article where
  issue_name : String
  date : String
  number : String
  pages : String
  downloadLink : String
  freshUuid : String
  dlSucceeds : Bool
deriving DecidableEq, Repr

/-- One row of the issues success/failure CSV. -/
structure IssueRecord where
  publication_issn : String
  issue_uuid : String
  issue_name : String
  date : String
  number : String
  number_of_pages : String
  issue_link : String
deriving DecidableEq, Repr

/-- The issue UUID chosen by `scrape_issues` for an article: the `id`
query parameter of the download link when a link exists and the parse
(`pid`, kept abstract, modelling `parse_download_link_id`) yields a
nonempty id, otherwise the freshly generated random UUID. -/
def issueUuidOf (pid : String → String) (a : Article) : String :=
  if a.downloadLink ≠ "" ∧ pid a.downloadLink ≠ "" then pid a.downloadLink
  else a.freshUuid

/-- The issue link recorded by `scrape_issues` (empty when no stable id
was derived). -/
def issueLinkOf (pid : String → String) (a : Article) : String :=
  if a.downloadLink ≠ "" ∧ pid a.downloadLink ≠ "" then
    "http://hemerotecadigital.bne.es/hd/es/results?id=" ++ pid a.downloadLink
  else ""

/-- The CSV record built for one article in the collection phase. -/
def recordOf (pid : String → String) (issn : String) (a : Article) : IssueRecord :=
  { publication_issn := issn
    issue_uuid := issueUuidOf pid a
    issue_name := a.issue_name
    date := a.date
    number := a.number
    number_of_pages := a.pages
    issue_link := issueLinkOf pid a }

/-- Observable state of one crawl run: the page counter, the in-memory
key set `existing_issue_uuids`, both CSV stores, and the log of download
dispatches (page index paired with the issue uuid downloaded). -/
structure CrawlState where
  pageIdx : Nat
  existing : List String
  successRows : List IssueRecord
  failureRows : List IssueRecord
  dispatched : List (Nat × String)
deriving DecidableEq, Repr

/-- Outcome bookkeeping for one dispatched page item, following
`process_issue_download` and the `as_completed` loop of `scrape_issues`:
a download is dispatched only when a download link (hence a pdf path)
exists; the item succeeds when there is nothing to download or the
download succeeds, in which case its row goes to the success store and
its uuid into the in-memory key set; otherwise the row goes to the
failure store. -/
def downloadStep (pid : String → String) (issn : String) (s : CrawlState)
    (a : Article) : CrawlState :=
  let r := recordOf pid issn a
  let d := if a.downloadLink ≠ "" then s.dispatched ++ [(s.pageIdx, r.issue_uuid)]
    else s.dispatched
  if a.downloadLink = "" ∨ a.dlSucceeds = true then
    { s with successRows := s.successRows ++ [r],
             existing := addKey r.issue_uuid s.existing,
             dispatched := d }
  else
    { s with failureRows := s.failureRows ++ [r], dispatched := d }

/-- Processing of one listing page in `scrape_issues`: the collection
phase first filters out every article whose uuid is already in the key
set (the `continue` at the dedup check), then the download phase handles
the remaining items, and the page counter advances. -/
def processPage (pid : String → String) (issn : String) (s : CrawlState)
    (arts : List Article) : CrawlState :=
  let fresh := arts.filter (fun a => !decide (issueUuidOf pid a ∈ s.existing))
  let s2 := fresh.foldl (downloadStep pid issn) s
  { s2 with pageIdx := s2.pageIdx + 1 }

/-- The crawl state at the start of a run, with the key set loaded from
the store. -/
def initialCrawlState (init : List String) : CrawlState :=
  ⟨0, init, [], [], []⟩

/-- One crawl run over a sequence of listing pages (each tagged with the
ISSN of the publication it belongs to). -/
def runCrawl (pid : String → String) (init : List String)
    (pages : List (String × List Article)) : CrawlState :=
  pages.foldl (fun s pg => processPage pid pg.1 s pg.2) (initialCrawlState init)

/-- A concrete item whose first part extracts cleanly while a later part
raises on access. -/
def cexParts : List NamePart :=
  [⟨"My Title".toList, true, false⟩, ⟨"x".toList, false, true⟩]

/-- A concrete item on which every part extracts cleanly. -/
def demoParts : List NamePart :=
  [⟨" Diario de Madrid ".toList, true, false⟩,
    ⟨"01/02/1900".toList, false, false⟩,
    ⟨"n.º 7".toList, false, false⟩,
    ⟨"4 páginas".toList, false, false⟩]

/-- A degenerate link-id parse used for concrete runs: no link yields a
stable id, so every article falls back to its fresh UUID. -/
def pidStub : String → String := fun _ => ""

-- ==================== THEOREMS ====================

/-- Claim C6: `parse_date_range` maps the specification's example inputs
exactly as stated, and every input handled by the single-date branch
yields equal start and end components. -/
theorem parse_date_range_examples :
    parse_date_range (some ("01/03/1850-31/12/1860".toList)) =
      (some ⟨1850, 3, 1⟩, some ⟨1860, 12, 31⟩) ∧
    parse_date_range (some ("-31/12/1860".toList)) = (none, some ⟨1860, 12, 31⟩) ∧
    parse_date_range (some ("01/03/1850-".toList)) = (some ⟨1850, 3, 1⟩, none) ∧
    parse_date_range (some ("01/03/1850".toList)) =
      (some ⟨1850, 3, 1⟩, some ⟨1850, 3, 1⟩) ∧
    parse_date_range (some ("".toList)) = (none, none) ∧
    parse_date_range none = (none, none) ∧
    parse_date_range (some ("not-a-date".toList)) = (none, none) ∧
    (∀ s : List Char,
      pyStrip s ≠ [] →
      (pyStrip s).getLast? ≠ some '-' →
      (pyStrip s).head? ≠ some '-' →
      (pyStrip s).contains '-' = false →
      (parse_date_range (some s)).1 = (parse_date_range (some s)).2) := by
  refine ⟨by decide, by decide, by decide, by decide, by decide, rfl, by decide, ?_⟩
  intro s h1 h2 h3 h4
  simp only [parse_date_range, if_neg h1, if_neg h2, if_neg h3, h4]
  cases strptimeDMY (pyStrip s) <;> simp

/-- Witness for `parse_date_range_examples`: the single-date conjunct at the
concrete input `"05/05/1900"`. -/
theorem parse_date_range_examples_witness :
    pyStrip ("05/05/1900".toList) ≠ [] ∧
    (parse_date_range (some ("05/05/1900".toList))).1 =
      (parse_date_range (some ("05/05/1900".toList))).2 :=
  ⟨by decide,
    parse_date_range_examples.2.2.2.2.2.2.2 ("05/05/1900".toList)
      (by decide) (by decide) (by decide) (by decide)⟩

theorem mem_dropLeadingP {p : Char → Bool} {l : List Char} {c : Char}
    (h : c ∈ dropLeadingP p l) : c ∈ l := by
  induction l with
  | nil => simpa [dropLeadingP] using h
  | cons a rest ih =>
    by_cases hpa : p a = true
    · simp only [dropLeadingP, List.dropWhile_cons, hpa, if_true] at h
      exact List.mem_cons_of_mem a (ih h)
    · simp only [dropLeadingP, List.dropWhile_cons, hpa, if_false] at h
      exact h

theorem mem_dropTrailingP {p : Char → Bool} {l : List Char} {c : Char}
    (h : c ∈ dropTrailingP p l) : c ∈ l := by
  induction l with
  | nil => simpa [dropTrailingP] using h
  | cons a rest ih =>
    simp only [dropTrailingP] at h
    by_cases hb : (dropTrailingP p rest).isEmpty && p a
    · simp [hb] at h
    · simp only [hb, if_false] at h
      rcases List.mem_cons.mp h with h | h
      · exact h ▸ List.mem_cons_self a rest
      · exact List.mem_cons_of_mem a (ih h)

theorem mem_collapseRuns {l : List Char} {c : Char} (h : c ∈ collapseRuns l) :
    c = '-' ∨ (c ∈ l ∧ isDashOrSpace c = false) := by
  induction l with
  | nil => simp [collapseRuns] at h
  | cons a rest ih =>
    cases rest with
    | nil =>
      simp only [collapseRuns, List.mem_singleton] at h
      by_cases ha : isDashOrSpace a = true
      · left; simpa [ha] using h
      · right
        rw [if_neg ha] at h
        exact ⟨by rw [h]; exact List.mem_cons_self a [], by rw [h]; simpa using ha⟩
    | cons b rest2 =>
      simp only [collapseRuns] at h
      by_cases hab : isDashOrSpace a && isDashOrSpace b
      · simp only [hab, if_true] at h
        rcases ih h with h | ⟨hm, hs⟩
        · exact Or.inl h
        · exact Or.inr ⟨List.mem_cons_of_mem a hm, hs⟩
      · simp only [hab, if_false] at h
        rcases List.mem_cons.mp h with h | h
        · by_cases ha : isDashOrSpace a = true
          · left; simpa [ha] using h
          · right
            rw [if_neg ha] at h
            exact ⟨by rw [h]; exact List.mem_cons_self a _, by rw [h]; simpa using ha⟩
        · rcases ih h with h | ⟨hm, hs⟩
          · exact Or.inl h
          · exact Or.inr ⟨List.mem_cons_of_mem a hm, hs⟩

theorem head_collapseRuns {b : Char} {rest : List Char}
    (hb : isDashOrSpace b = false) :
    (collapseRuns (b :: rest)).head? = some b := by
  cases rest with
  | nil => simp [collapseRuns, hb]
  | cons c rest2 => simp [collapseRuns, hb]

theorem noDoubleDash_tail {c : Char} {l : List Char}
    (h : noDoubleDash (c :: l) = true) : noDoubleDash l = true := by
  cases l with
  | nil => simp [noDoubleDash]
  | cons b rest =>
    simp only [noDoubleDash, Bool.and_eq_true] at h
    exact h.2

theorem noDoubleDash_collapseRuns (l : List Char) :
    noDoubleDash (collapseRuns l) = true := by
  induction l with
  | nil => simp [collapseRuns, noDoubleDash]
  | cons a rest ih =>
    cases rest with
    | nil =>
      simp [collapseRuns, noDoubleDash]
    | cons b rest2 =>
      simp only [collapseRuns]
      by_cases hab : isDashOrSpace a && isDashOrSpace b
      · simpa [hab] using ih
      · simp only [hab, if_false]
        rcases hys : collapseRuns (b :: rest2) with _ | ⟨y, t⟩
        · simp [noDoubleDash]
        · have hndd : noDoubleDash (y :: t) = true := by rw [← hys]; exact ih
          simp only [noDoubleDash, Bool.and_eq_true]
          refine ⟨?_, hndd⟩
          by_cases ha : isDashOrSpace a = true
          · have hbns : isDashOrSpace b = false := by
              rcases Bool.and_eq_false_iff.mp (by simpa using hab) with h | h
              · exact absurd ha (by simp [h])
              · exact h
            have hy : y = b := by
              have := @head_collapseRuns b rest2 hbns
              rw [hys] at this
              simpa using this
            have hbne : (b == '-') = false := by
              have hbd : ¬ b = '-' := by
                intro hbd
                rw [hbd] at hbns
                exact absurd hbns (by decide)
              simpa using hbd
            simp [ha, hy, hbne]
          · have hane : (a == '-') = false := by
              have had : ¬ a = '-' := by
                intro had
                rw [had] at ha
                exact ha (by decide)
              simpa using had
            simp [ha, hane]

theorem noDoubleDash_dropLeadingP {p : Char → Bool} {l : List Char}
    (h : noDoubleDash l = true) : noDoubleDash (dropLeadingP p l) = true := by
  induction l with
  | nil => simpa [dropLeadingP] using h
  | cons a rest ih =>
    by_cases hpa : p a = true
    · simp only [dropLeadingP, List.dropWhile_cons, hpa, if_true]
      exact ih (noDoubleDash_tail h)
    · simpa [dropLeadingP, List.dropWhile_cons, hpa] using h

theorem head_dropTrailingP {p : Char → Bool} {l : List Char}
    (h : dropTrailingP p l ≠ []) : (dropTrailingP p l).head? = l.head? := by
  cases l with
  | nil => simp [dropTrailingP]
  | cons a rest =>
    simp only [dropTrailingP] at h ⊢
    by_cases hb : ((dropTrailingP p rest).isEmpty && p a) = true
    · rw [if_pos hb] at h
      exact absurd rfl h
    · rw [if_neg hb]
      simp

theorem noDoubleDash_dropTrailingP {p : Char → Bool} {l : List Char}
    (h : noDoubleDash l = true) : noDoubleDash (dropTrailingP p l) = true := by
  induction l with
  | nil => simpa [dropTrailingP] using h
  | cons a rest ih =>
    simp only [dropTrailingP]
    by_cases hb : (dropTrailingP p rest).isEmpty && p a
    · simp [hb, noDoubleDash]
    · simp only [hb, if_false]
      have hr : noDoubleDash (dropTrailingP p rest) = true := ih (noDoubleDash_tail h)
      rcases hr2 : dropTrailingP p rest with _ | ⟨r0, t⟩
      · simp [noDoubleDash]
      · have hne : dropTrailingP p rest ≠ [] := by simp [hr2]
        have hh := head_dropTrailingP hne
        rw [hr2] at hh
        cases rest with
        | nil => simp [dropTrailingP] at hr2
        | cons b rt =>
          have hb0 : r0 = b := by simpa using hh
          subst hb0
          simp only [noDoubleDash, Bool.and_eq_true] at h ⊢
          exact ⟨h.1, by rw [← hr2]; exact hr⟩

theorem getLast_dropTrailingP {p : Char → Bool} {l : List Char} {c : Char}
    (h : (dropTrailingP p l).getLast? = some c) : p c = false := by
  induction l with
  | nil => simp [dropTrailingP] at h
  | cons a rest ih =>
    simp only [dropTrailingP] at h
    by_cases hb : ((dropTrailingP p rest).isEmpty && p a) = true
    · rw [if_pos hb] at h
      simp at h
    · rw [if_neg hb] at h
      rcases hr : dropTrailingP p rest with _ | ⟨r0, t⟩
      · rw [hr] at h
        have hca : a = c := by simpa using h
        have hpa : p a = false := by
          rw [hr] at hb
          simpa using hb
        rw [← hca]
        exact hpa
      · rw [hr] at h
        rw [List.getLast?_cons_cons] at h
        exact ih (by rw [hr]; exact h)

theorem head_dropLeadingP {p : Char → Bool} {l : List Char} {c : Char}
    (h : (dropLeadingP p l).head? = some c) : p c = false := by
  induction l with
  | nil => simp [dropLeadingP] at h
  | cons a rest ih =>
    by_cases hpa : p a = true
    · simp only [dropLeadingP, List.dropWhile_cons, hpa, if_true] at h
      exact ih h
    · simp only [dropLeadingP, List.dropWhile_cons] at h
      rw [if_neg hpa] at h
      simp only [List.head?_cons, Option.some.injEq] at h
      rw [← h]
      simpa using hpa

/-- Claim C7 (amended): `sanitize_dirname` output never contains a
disallowed path character or whitespace, never contains two adjacent
dashes, and never starts or ends with a dash; the composed path-segment
computation maps an empty input segment to the literal `unknown`, and maps
a segment whose sanitized form is empty to the literals
`unknown_collection` / `unknown_issn`. -/
theorem sanitize_dirname_props :
    (∀ (name : List Char), ∀ c ∈ sanitize_dirname name,
        isBadPathChar c = false ∧ c.isWhitespace = false) ∧
    (∀ name : List Char, noDoubleDash (sanitize_dirname name) = true) ∧
    (∀ name : List Char, (sanitize_dirname name).head? ≠ some '-') ∧
    (∀ name : List Char, (sanitize_dirname name).getLast? ≠ some '-') ∧
    collectionSafe [] = "unknown".toList ∧
    issnSafe [] = "unknown".toList ∧
    (∀ seg, sanitize_dirname seg = [] →
        collectionSafe seg = "unknown_collection".toList ∧
        issnSafe seg = "unknown_issn".toList) := by
  refine ⟨?_, ?_, ?_, ?_, by decide, by decide, ?_⟩
  · intro name c hc
    by_cases hn : name = []
    · subst hn
      simp only [sanitize_dirname, if_pos rfl] at hc
      have hAll : ∀ x ∈ "unknown".toList, isBadPathChar x = false ∧ x.isWhitespace = false := by
        decide
      exact hAll c (by simpa using hc)
    · simp only [sanitize_dirname, if_neg hn, stripDashes] at hc
      have hc2 := mem_dropLeadingP (mem_dropTrailingP hc)
      rcases mem_collapseRuns hc2 with h | ⟨hm, hs⟩
      · subst h
        exact ⟨by decide, by decide⟩
      · rcases List.mem_map.mp hm with ⟨d, _, hd⟩
        have hcd : c = d := by
          by_cases hbd : isBadPathChar d = true
          · exfalso
            rw [replaceBadChar, if_pos hbd] at hd
            rw [← hd] at hs
            exact absurd hs (by decide)
          · rw [replaceBadChar, if_neg hbd] at hd
            exact hd.symm
        constructor
        · rw [hcd]
          by_cases hbd : isBadPathChar d = true
          · exfalso
            rw [replaceBadChar, if_pos hbd] at hd
            rw [← hd] at hs
            exact absurd hs (by decide)
          · simpa using hbd
        · have hs2 : ¬ c = '-' ∧ c.isWhitespace = false := by
            simpa [isDashOrSpace] using hs
          exact hs2.2
  · intro name
    by_cases hn : name = []
    · subst hn
      simp only [sanitize_dirname, if_pos rfl]
      decide
    · simp only [sanitize_dirname, if_neg hn, stripDashes]
      exact noDoubleDash_dropTrailingP
        (noDoubleDash_dropLeadingP (noDoubleDash_collapseRuns _))
  · intro name
    by_cases hn : name = []
    · subst hn
      simp only [sanitize_dirname, if_pos rfl]
      decide
    · simp only [sanitize_dirname, if_neg hn, stripDashes]
      intro hhead
      by_cases hemp : dropTrailingP (fun c => c == '-')
          (dropLeadingP (fun c => c == '-') (collapseRuns (name.map replaceBadChar))) = []
      · rw [hemp] at hhead
        simp at hhead
      · rw [head_dropTrailingP hemp] at hhead
        have := head_dropLeadingP hhead
        simp at this
  · intro name
    by_cases hn : name = []
    · subst hn
      simp only [sanitize_dirname, if_pos rfl]
      decide
    · simp only [sanitize_dirname, if_neg hn, stripDashes]
      intro hlast
      have := getLast_dropTrailingP hlast
      simp at this
  · intro seg h
    constructor
    · simp [collectionSafe, h]
    · simp [issnSafe, h]

/-- Claim C7 counterexample: an empty input segment yields the directory
name `unknown`, not the claimed literals `unknown_collection` /
`unknown_issn`. -/
theorem sanitize_empty_segment_cex :
    collectionSafe [] ≠ "unknown_collection".toList ∧
    issnSafe [] ≠ "unknown_issn".toList := by decide

/-- Witness for `sanitize_dirname_props`: the segment `"---"` sanitizes to
the empty list and therefore falls back to the literal, and a segment
containing `/`, `:`, `*` yields a name with no double dashes. -/
theorem sanitize_dirname_props_witness :
    sanitize_dirname ("---".toList) = [] ∧
    collectionSafe ("---".toList) = "unknown_collection".toList ∧
    noDoubleDash (sanitize_dirname ("a/b:c*d".toList)) = true :=
  ⟨by decide, (sanitize_dirname_props.2.2.2.2.2.2 ("---".toList) (by decide)).1,
    sanitize_dirname_props.2.1 ("a/b:c*d".toList)⟩

/-- Claim C4: in `download_pdf`, the interaction-based fallback is entered
exactly when the primary streamed retrieval raises; a non-OK status of the
primary retrieval returns failure directly without the fallback; and when
both strategies are exhausted the call returns `false`. Totality of the
model function reflects that no exception escapes this boundary. -/
theorem download_pdf_fallback_policy (env : DownloadEnv) :
    ((download_pdf env).2 = primaryRaised env) ∧
    (∀ status : Nat, env.primary = .ok status → status ≠ 200 →
        download_pdf env = (false, false)) ∧
    (∀ e : String, env.primary = .error e →
        (env.fallback = .ok none ∨ ∃ e2, env.fallback = .error e2) →
        (download_pdf env).1 = false) := by
  refine ⟨?_, ?_, ?_⟩
  · rcases env with ⟨pr, fb⟩
    cases pr with
    | ok status =>
      by_cases h : status = 200 <;> simp [download_pdf, primaryRaised, h]
    | error e =>
      cases fb with
      | ok o => cases o <;> simp [download_pdf, primaryRaised]
      | error e2 => simp [download_pdf, primaryRaised]
  · intro status h hne
    rcases env with ⟨pr, fb⟩
    simp only at h
    subst h
    simp [download_pdf, hne]
  · intro e h hf
    rcases env with ⟨pr, fb⟩
    simp only at h
    subst h
    rcases hf with hf | ⟨e2, hf⟩ <;> simp only at hf <;> subst hf <;>
      simp [download_pdf]

/-- Witness for `download_pdf_fallback_policy`: a non-OK primary status
returns plain failure, and a raising primary with a timed-out fallback
returns failure. -/
theorem download_pdf_fallback_policy_witness :
    download_pdf ⟨.ok 404, .ok none⟩ = (false, false) ∧
    (download_pdf ⟨.error "conn reset", .ok none⟩).1 = false :=
  ⟨(download_pdf_fallback_policy ⟨.ok 404, .ok none⟩).2.1 404 rfl (by decide),
    (download_pdf_fallback_policy ⟨.error "conn reset", .ok none⟩).2.2
      "conn reset" rfl (Or.inl rfl)⟩

theorem firstIssnIdx_eq_some {c : String} :
    ∀ (pubs : List Publication) (k : Nat) (hk : k < pubs.length),
      (pubs.get ⟨k, hk⟩).issn = c →
      (∀ (m : Nat) (hm : m < pubs.length), m < k → (pubs.get ⟨m, hm⟩).issn ≠ c) →
      firstIssnIdx c pubs = some k := by
  intro pubs
  induction pubs with
  | nil =>
    intro k hk
    simp at hk
  | cons p rest ih =>
    intro k hk hkc hmin
    cases k with
    | zero =>
      simp only [List.get] at hkc
      simp [firstIssnIdx, hkc]
    | succ k2 =>
      have hp : p.issn ≠ c := by
        have h0 := hmin 0 (by simp) (by omega)
        simpa using h0
      have hrest : firstIssnIdx c rest = some k2 := by
        refine ih k2 (by simpa using hk) (by simpa using hkc) ?_
        intro m hm hmk
        have h1 := hmin (m + 1) (by simpa using hm) (by omega)
        simpa using h1
      simp [firstIssnIdx, hp, hrest]

theorem firstIssnIdx_eq_none {c : String} :
    ∀ pubs : List Publication, (∀ p ∈ pubs, p.issn ≠ c) →
      firstIssnIdx c pubs = none := by
  intro pubs
  induction pubs with
  | nil => intro _; rfl
  | cons p rest ih =>
    intro h
    have hp : p.issn ≠ c := h p (List.mem_cons_self p rest)
    simp [firstIssnIdx, hp, ih (fun q hq => h q (List.mem_cons_of_mem p hq))]

theorem head_drop_eq_get :
    ∀ (pubs : List Publication) (k : Nat) (hk : k < pubs.length),
      (pubs.drop k).head? = some (pubs.get ⟨k, hk⟩) := by
  intro pubs
  induction pubs with
  | nil =>
    intro k hk
    simp at hk
  | cons p rest ih =>
    intro k hk
    cases k with
    | zero => simp
    | succ k2 => simpa using ih k2 (by simpa using hk)

/-- Claim C2: when the checkpoint equals the ISSN of some entity of the
input list, `scrape_issues` truncates the list to start at the first such
entity inclusive (so that entity is reprocessed and the earlier ones are
not), and when the checkpoint matches no entity the list is returned
unchanged. -/
theorem resume_checkpoint_truncation (c : String) (pubs : List Publication)
    (hc : c ≠ "") :
    (∀ (k : Nat) (hk : k < pubs.length),
        (pubs.get ⟨k, hk⟩).issn = c →
        (∀ (m : Nat) (hm : m < pubs.length), m < k → (pubs.get ⟨m, hm⟩).issn ≠ c) →
        resumePublications (some c) pubs = pubs.drop k ∧
        (pubs.drop k).head? = some (pubs.get ⟨k, hk⟩)) ∧
    ((∀ p ∈ pubs, p.issn ≠ c) → resumePublications (some c) pubs = pubs) := by
  constructor
  · intro k hk hkc hmin
    refine ⟨?_, head_drop_eq_get pubs k hk⟩
    simp [resumePublications, hc, firstIssnIdx_eq_some pubs k hk hkc hmin]
  · intro h
    simp [resumePublications, hc, firstIssnIdx_eq_none pubs h]

/-- Witness for `resume_checkpoint_truncation`: a three-entity list with
the checkpoint at index 1 resumes from index 1 inclusive. -/
theorem resume_checkpoint_truncation_witness :
    resumePublications (some "0002")
        [⟨"u1", "0001", "col", "A", "l1"⟩, ⟨"u2", "0002", "col", "B", "l2"⟩,
          ⟨"u3", "0003", "col", "C", "l3"⟩] =
      List.drop 1
        [⟨"u1", "0001", "col", "A", "l1"⟩, ⟨"u2", "0002", "col", "B", "l2"⟩,
          ⟨"u3", "0003", "col", "C", "l3"⟩] ∧
    (List.drop 1
        [(⟨"u1", "0001", "col", "A", "l1"⟩ : Publication),
          ⟨"u2", "0002", "col", "B", "l2"⟩, ⟨"u3", "0003", "col", "C", "l3"⟩]).head? =
      some (List.get
        [⟨"u1", "0001", "col", "A", "l1"⟩, ⟨"u2", "0002", "col", "B", "l2"⟩,
          ⟨"u3", "0003", "col", "C", "l3"⟩] ⟨1, by decide⟩) :=
  (resume_checkpoint_truncation "0002" _ (by decide)).1 1 (by decide) (by decide)
    (by
      intro m hm hmk
      have hm0 : m = 0 := by omega
      subst hm0
      exact (by decide :
        (List.get
          ([⟨"u1", "0001", "col", "A", "l1"⟩, ⟨"u2", "0002", "col", "B", "l2"⟩,
            ⟨"u3", "0003", "col", "C", "l3"⟩] : List Publication)
          ⟨0, by decide⟩).issn ≠ "0002"))

theorem mem_addKey {u s : String} {l : List String} :
    u ∈ addKey s l ↔ u ∈ l ∨ u = s := by
  unfold addKey
  by_cases h : s ∈ l
  · rw [if_pos h]
    constructor
    · exact Or.inl
    · rintro (h2 | h2)
      · exact h2
      · exact h2 ▸ h
  · rw [if_neg h]
    simp

theorem mem_scan_keys (rows : List CsvRow) :
    ∀ (st : List String × Option String) (u : String),
      u ∈ (rows.foldl scanRow st).1 ↔
        u ∈ st.1 ∨ (u ≠ "" ∧ ∃ r ∈ rows, r.issue_uuid = some u) := by
  induction rows with
  | nil =>
    intro st u
    simp
  | cons r rest ih =>
    intro st u
    rw [List.foldl_cons, ih]
    have hk : u ∈ (scanRow st r).1 ↔
        u ∈ st.1 ∨ (u ≠ "" ∧ r.issue_uuid = some u) := by
      rcases r with ⟨ru, ri⟩
      rcases ru with _ | s
      · simp [scanRow]
      · by_cases hs : s = ""
        · subst hs
          have hsc : (scanRow st ⟨some "", ri⟩).1 = st.1 := by
            simp [scanRow]
          rw [hsc]
          refine ⟨Or.inl, ?_⟩
          rintro (h2 | ⟨hne, he⟩)
          · exact h2
          · exact absurd (Option.some.inj he).symm hne
        · have hsr : (scanRow st ⟨some s, ri⟩).1 = addKey s st.1 := by
            simp [scanRow, hs]
          rw [hsr, mem_addKey]
          constructor
          · rintro (h2 | h2)
            · exact Or.inl h2
            · exact Or.inr ⟨h2 ▸ hs, by rw [h2]⟩
          · rintro (h2 | ⟨hne, he⟩)
            · exact Or.inl h2
            · exact Or.inr (Option.some.inj he).symm
    rw [hk]
    constructor
    · rintro ((h | ⟨hne, he⟩) | ⟨hne, r2, hr2, he2⟩)
      · exact Or.inl h
      · exact Or.inr ⟨hne, r, List.mem_cons_self r rest, he⟩
      · exact Or.inr ⟨hne, r2, List.mem_cons_of_mem r hr2, he2⟩
    · rintro (h | ⟨hne, r2, hr2, he2⟩)
      · exact Or.inl (Or.inl h)
      · rcases List.mem_cons.mp hr2 with h2 | h2
        · exact Or.inl (Or.inr ⟨hne, h2 ▸ he2⟩)
        · exact Or.inr ⟨hne, r2, h2, he2⟩

theorem scan_foldl_checkpoint (rows : List CsvRow) :
    ∀ st : List String × Option String,
      (rows.foldl scanRow st).2 =
        match lastTruthyIssn rows with
        | some s => some s
        | none => st.2 := by
  induction rows with
  | nil =>
    intro st
    simp [lastTruthyIssn]
  | cons r rest ih =>
    intro st
    rw [List.foldl_cons, ih]
    rcases hfind : rest.reverse.find? truthyIssn with _ | r2
    · have h1 : lastTruthyIssn rest = none := by
        simp [lastTruthyIssn, hfind]
      rw [h1]
      have h2 : (r :: rest).reverse.find? truthyIssn = [r].find? truthyIssn := by
        rw [List.reverse_cons, List.find?_append, hfind]
        rfl
      by_cases ht : truthyIssn r = true
      · have h3 : lastTruthyIssn (r :: rest) = r.publication_issn := by
          unfold lastTruthyIssn
          rw [List.reverse_cons, List.find?_append, hfind]
          simp [List.find?, ht]
        rw [h3]
        rcases r with ⟨ru, ri⟩
        rcases ri with _ | s
        · simp [truthyIssn] at ht
        · have hs : s ≠ "" := by simpa [truthyIssn] using ht
          simp [scanRow, hs]
      · have h3 : lastTruthyIssn (r :: rest) = none := by
          unfold lastTruthyIssn
          rw [List.reverse_cons, List.find?_append, hfind]
          simp [List.find?, ht]
        rw [h3]
        rcases r with ⟨ru, ri⟩
        rcases ri with _ | s
        · simp [scanRow]
        · have hs : s = "" := by
            by_contra hs
            exact ht (by simpa [truthyIssn] using hs)
          subst hs
          simp [scanRow]
    · have ht2 : truthyIssn r2 = true := List.find?_some hfind
      have h1 : lastTruthyIssn rest = r2.publication_issn := by
        simp [lastTruthyIssn, hfind]
      have h2 : lastTruthyIssn (r :: rest) = r2.publication_issn := by
        simp [lastTruthyIssn, List.reverse_cons, List.find?_append, hfind]
      rw [h1, h2]
      rcases hri : r2.publication_issn with _ | s
      · exfalso
        unfold truthyIssn at ht2
        rw [hri] at ht2
        simp at ht2
      · rfl

/-- Claim C3 (amended): on a fully readable store, the key set of
`get_existing_issue_uuids` contains exactly the nonempty present values of
the `issue_uuid` column, and the checkpoint is the `publication_issn`
value of the last row that carries a nonempty one (absent when no row
does) — not of the last row read unconditionally. -/
theorem get_existing_issue_uuids_characterization (rows : List CsvRow) :
    (∀ u : String,
        u ∈ (get_existing_issue_uuids (some ⟨rows, none⟩)).1 ↔
          (u ≠ "" ∧ ∃ r ∈ rows, r.issue_uuid = some u)) ∧
    (get_existing_issue_uuids (some ⟨rows, none⟩)).2 = lastTruthyIssn rows := by
  constructor
  · intro u
    have h := mem_scan_keys rows ([], none) u
    simpa [get_existing_issue_uuids] using h
  · have h := scan_foldl_checkpoint rows ([], none)
    rw [show get_existing_issue_uuids (some ⟨rows, none⟩) =
        rows.foldl scanRow ([], none) from rfl, h]
    cases lastTruthyIssn rows <;> rfl

/-- Claim C3 counterexample: when the last row read has an empty
`publication_issn`, the code keeps the previous nonempty value as the
checkpoint, while the claim's reading (checkpoint from the last row read)
yields the empty value. -/
theorem get_existing_checkpoint_cex :
    get_existing_issue_uuids
        (some ⟨[⟨some "u1", some "A"⟩, ⟨some "u2", some ""⟩], none⟩) ≠
      getExistingSpecClaim [⟨some "u1", some "A"⟩, ⟨some "u2", some ""⟩] := by
  decide

/-- Witness for `get_existing_issue_uuids_characterization`: the key-set
membership equivalence at a concrete store and key. -/
theorem get_existing_issue_uuids_characterization_witness :
    "u1" ∈ (get_existing_issue_uuids
        (some ⟨[⟨some "u1", some "A"⟩], none⟩)).1 ↔
      ("u1" ≠ "" ∧ ∃ r ∈ [(⟨some "u1", some "A"⟩ : CsvRow)],
        r.issue_uuid = some "u1") :=
  (get_existing_issue_uuids_characterization [⟨some "u1", some "A"⟩]).1 "u1"

/-- Claim C9 (amended): a missing store file yields the fresh-start state
(empty key set, absent checkpoint); a store whose read raises before any
row is consumed also yields the fresh-start state; and in general a read
that raises after `n` rows degrades, without aborting, to exactly the
state accumulated from the first `n` rows — so the key set can be
nonempty after a mid-file failure. -/
theorem get_existing_issue_uuids_degradation :
    get_existing_issue_uuids none = ([], none) ∧
    (∀ f : ReadOutcome, f.failsAfter = some 0 →
        get_existing_issue_uuids (some f) = ([], none)) ∧
    (∀ (rows : List CsvRow) (n : Nat),
        get_existing_issue_uuids (some ⟨rows, some n⟩) =
          get_existing_issue_uuids (some ⟨rows.take n, none⟩)) ∧
    (∀ (rows : List CsvRow) (n : Nat) (u : String),
        u ∈ (get_existing_issue_uuids (some ⟨rows, some n⟩)).1 →
        u ≠ "" ∧ ∃ r ∈ rows.take n, r.issue_uuid = some u) := by
  refine ⟨rfl, ?_, ?_, ?_⟩
  · rintro ⟨rows, fa⟩ h
    simp only at h
    subst h
    rfl
  · intro rows n
    rfl
  · intro rows n u h
    have h2 := (mem_scan_keys (rows.take n) ([], none) u).mp
      (by simpa [get_existing_issue_uuids] using h)
    simpa using h2

/-- Claim C9 counterexample: a store whose read raises after one good row
returns that row's key and checkpoint, not the fresh-start state the
claim requires for malformed stores. -/
theorem get_existing_malformed_cex :
    get_existing_issue_uuids (some ⟨[⟨some "ux", some "B"⟩], some 1⟩) ≠
      (([] : List String), (none : Option String)) := by
  decide

/-- Witness for `get_existing_issue_uuids_degradation`: a read failing
before the first row yields the fresh-start state. -/
theorem get_existing_issue_uuids_degradation_witness :
    get_existing_issue_uuids (some ⟨[⟨some "u9", some "C"⟩], some 0⟩) =
      ([], none) :=
  get_existing_issue_uuids_degradation.2.1 ⟨[⟨some "u9", some "C"⟩], some 0⟩ rfl

theorem writePageStep_foldl (names : List (List Char)) :
    ∀ (d : DestDir) (w : List (List Char)),
      (names.foldl writePageStep (d, w)).1.dirExists = d.dirExists ∧
      ∃ ws, (names.foldl writePageStep (d, w)).2 = w ++ ws ∧
        (names.foldl writePageStep (d, w)).1.files = d.files ++ ws ∧
        (∀ x ∈ ws, x ∈ names ∧ x ∉ d.files) ∧
        (∀ x ∈ names, x ∈ (names.foldl writePageStep (d, w)).1.files) := by
  induction names with
  | nil =>
    intro d w
    exact ⟨rfl, [], by simp, by simp, by simp, by simp⟩
  | cons n rest ih =>
    intro d w
    by_cases hn : n ∈ d.files
    · have hstep : writePageStep (d, w) n = (d, w) := by
        simp [writePageStep, hn]
      rw [List.foldl_cons, hstep]
      obtain ⟨hde, ws, hw, hf, hprop, hall⟩ := ih d w
      refine ⟨hde, ws, hw, hf, ?_, ?_⟩
      · exact fun x hx => ⟨List.mem_cons_of_mem n (hprop x hx).1, (hprop x hx).2⟩
      · intro x hx
        rcases List.mem_cons.mp hx with h | h
        · rw [h, hf]
          exact List.mem_append_left _ hn
        · exact hall x h
    · have hstep : writePageStep (d, w) n =
          ({ d with files := d.files ++ [n] }, w ++ [n]) := by
        simp [writePageStep, hn]
      rw [List.foldl_cons, hstep]
      obtain ⟨hde, ws, hw, hf, hprop, hall⟩ := ih { d with files := d.files ++ [n] } (w ++ [n])
      refine ⟨hde, n :: ws, ?_, ?_, ?_, ?_⟩
      · rw [hw]
        simp
      · rw [hf]
        simp
      · intro x hx
        rcases List.mem_cons.mp hx with h | h
        · exact ⟨by rw [h]; exact List.mem_cons_self n rest, by rw [h]; exact hn⟩
        · have h2 := hprop x h
          exact ⟨List.mem_cons_of_mem n h2.1,
            fun hx2 => h2.2 (List.mem_append_left _ hx2)⟩
      · intro x hx
        rcases List.mem_cons.mp hx with h | h
        · rw [h, hf]
          exact List.mem_append_left _ (List.mem_append_right _ (List.mem_singleton.mpr rfl))
        · exact hall x h

/-- Claim C5: `process_pdf` skips a PDF entirely (no filesystem effect, no
pages written) when the destination directory exists and the number of
files matching the page glob equals the page count; otherwise it writes
exactly the expected page files that were missing, appends them without
touching any pre-existing file, and afterwards every expected page file is
present. -/
theorem process_pdf_skip_and_resume (stem : List Char) (numPages : Nat) (d : DestDir) :
    (d.dirExists = true →
        (d.files.filter (matchesPageGlob stem)).length = numPages →
        process_pdf stem numPages d = (d, [])) ∧
    (¬ (d.dirExists = true ∧ (d.files.filter (matchesPageGlob stem)).length = numPages) →
        (process_pdf stem numPages d).1.dirExists = true ∧
        ∃ ws, (process_pdf stem numPages d).2 = ws ∧
          (process_pdf stem numPages d).1.files = d.files ++ ws ∧
          (∀ x ∈ ws, x ∈ expectedPageNames stem numPages ∧ x ∉ d.files) ∧
          (∀ x ∈ expectedPageNames stem numPages,
            x ∈ (process_pdf stem numPages d).1.files)) := by
  constructor
  · intro h1 h2
    simp [process_pdf, h1, h2]
  · intro h
    have hpp : process_pdf stem numPages d =
        (expectedPageNames stem numPages).foldl writePageStep
          ({ d with dirExists := true }, []) := by
      simp only [process_pdf, if_neg h]
    obtain ⟨hde, ws, hw, hf, hprop, hall⟩ :=
      writePageStep_foldl (expectedPageNames stem numPages)
        { d with dirExists := true } []
    rw [hpp]
    exact ⟨hde, ws, by simpa using hw, hf, hprop, hall⟩

/-- Witness for `process_pdf_skip_and_resume`: both branches at concrete
inputs — a one-page PDF whose single output file already exists is
skipped with no writes, and an empty destination gets exactly the missing
page written. -/
theorem process_pdf_skip_and_resume_witness :
    process_pdf ("doc".toList) 1 ⟨true, ["doc-p1.pdf".toList]⟩ =
      (⟨true, ["doc-p1.pdf".toList]⟩, []) :=
  (process_pdf_skip_and_resume ("doc".toList) 1 ⟨true, ["doc-p1.pdf".toList]⟩).1
    rfl (by decide)

theorem updateFields_name (acc : IssueFields) (p : NamePart) :
    (updateFields acc p).issue_name =
      if strongQ p = true then nameVal p else acc.issue_name := by
  cases hS : p.isStrong <;>
    by_cases h2 : containsSub paginasPat (lowerChars (pyStrip p.text)) = true <;>
    by_cases h3 : (containsSub ndegPat (lowerChars (pyStrip p.text)) ||
      containsSub nordPat (lowerChars (pyStrip p.text))) = true <;>
    by_cases hd : acc.date = [] <;>
    by_cases hl : 4 ≤ (pyStrip p.text).length <;>
    by_cases hg : (pyStrip p.text).any Char.isDigit = true <;>
    simp [updateFields, strongQ, nameVal, hS, h2, h3, hd, hl, hg]

theorem updateFields_pages (acc : IssueFields) (p : NamePart) :
    (updateFields acc p).pages =
      if pagesQ p = true then pagesVal p else acc.pages := by
  cases hS : p.isStrong <;>
    by_cases h2 : containsSub paginasPat (lowerChars (pyStrip p.text)) = true <;>
    by_cases h3 : (containsSub ndegPat (lowerChars (pyStrip p.text)) ||
      containsSub nordPat (lowerChars (pyStrip p.text))) = true <;>
    by_cases hd : acc.date = [] <;>
    by_cases hl : 4 ≤ (pyStrip p.text).length <;>
    by_cases hg : (pyStrip p.text).any Char.isDigit = true <;>
    simp [updateFields, pagesQ, pagesVal, hS, h2, h3, hd, hl, hg]

theorem updateFields_number (acc : IssueFields) (p : NamePart) :
    (updateFields acc p).number =
      if numberQ p = true then numberVal p else acc.number := by
  cases hS : p.isStrong <;>
    by_cases h2 : containsSub paginasPat (lowerChars (pyStrip p.text)) = true <;>
    by_cases h3 : (containsSub ndegPat (lowerChars (pyStrip p.text)) ||
      containsSub nordPat (lowerChars (pyStrip p.text))) = true <;>
    by_cases hd : acc.date = [] <;>
    by_cases hl : 4 ≤ (pyStrip p.text).length <;>
    by_cases hg : (pyStrip p.text).any Char.isDigit = true <;>
    simp [updateFields, numberQ, numberVal, hS, h2, h3, hd, hl, hg]

theorem updateFields_date (acc : IssueFields) (p : NamePart) :
    (updateFields acc p).date =
      if dateQ p = true ∧ acc.date = [] then dateVal p else acc.date := by
  cases hS : p.isStrong <;>
    by_cases h2 : containsSub paginasPat (lowerChars (pyStrip p.text)) = true <;>
    by_cases h3 : (containsSub ndegPat (lowerChars (pyStrip p.text)) ||
      containsSub nordPat (lowerChars (pyStrip p.text))) = true <;>
    by_cases hd : acc.date = [] <;>
    by_cases hl : 4 ≤ (pyStrip p.text).length <;>
    by_cases hg : (pyStrip p.text).any Char.isDigit = true <;>
    simp [updateFields, dateQ, dateVal, hS, h2, h3, hd, hl, hg]

theorem foldl_lastMatch (f : NamePart → Bool) (g : NamePart → List Char) :
    ∀ (parts : List NamePart) (acc : List Char),
      parts.foldl (fun cur p => if f p = true then g p else cur) acc =
        match (parts.filter f).getLast? with
        | some p => g p
        | none => acc := by
  intro parts
  induction parts with
  | nil =>
    intro acc
    rfl
  | cons p rest ih =>
    intro acc
    rw [List.foldl_cons, ih]
    by_cases hf : f p = true
    · rw [if_pos hf, List.filter_cons_of_pos hf]
      rcases hfl : rest.filter f with _ | ⟨a, l⟩
      · rfl
      · rw [List.getLast?_cons_cons]
        rcases hgl : (a :: l).getLast? with _ | q
        · exfalso
          rcases List.getLast?_eq_none_iff.mp hgl with h2
          simp at h2
        · rfl
    · rw [if_neg hf, List.filter_cons_of_neg hf]

theorem foldl_firstMatch (f : NamePart → Bool) (g : NamePart → List Char)
    (hg : ∀ p, f p = true → g p ≠ []) :
    ∀ (parts : List NamePart) (acc : List Char),
      parts.foldl (fun cur p => if f p = true ∧ cur = [] then g p else cur) acc =
        (if acc = [] then
          match (parts.filter f).head? with
          | some p => g p
          | none => []
        else acc) := by
  intro parts
  induction parts with
  | nil =>
    intro acc
    by_cases ha : acc = [] <;> simp [ha]
  | cons p rest ih =>
    intro acc
    rw [List.foldl_cons, ih]
    by_cases ha : acc = []
    · by_cases hf : f p = true
      · have hstep : (if f p = true ∧ acc = [] then g p else acc) = g p :=
          if_pos ⟨hf, ha⟩
        rw [hstep, if_neg (hg p hf), if_pos ha, List.filter_cons_of_pos hf]
        rfl
      · have hstep : (if f p = true ∧ acc = [] then g p else acc) = acc :=
          if_neg (fun h2 => hf h2.1)
        rw [hstep, if_pos ha, if_pos ha, List.filter_cons_of_neg hf]
    · have hstep : (if f p = true ∧ acc = [] then g p else acc) = acc :=
        if_neg (fun h2 => ha h2.2)
      rw [hstep, if_neg ha, if_neg ha]

theorem dateQ_val_ne (p : NamePart) (h : dateQ p = true) : dateVal p ≠ [] := by
  intro hnil
  unfold dateQ at h
  simp only [Bool.and_eq_true, decide_eq_true_eq] at h
  have hlen : 4 ≤ (pyStrip p.text).length := h.1.2
  unfold dateVal at hnil
  rw [hnil] at hlen
  simp at hlen

theorem parsePartsGo_none (parts : List NamePart) :
    ∀ acc : IssueFields, (∃ p ∈ parts, p.raises = true) →
      parsePartsGo parts acc = none := by
  induction parts with
  | nil =>
    intro acc h
    rcases h with ⟨p, hp, _⟩
    simp at hp
  | cons p rest ih =>
    intro acc h
    by_cases hp : p.raises = true
    · simp [parsePartsGo, hp]
    · have hrest : ∃ q ∈ rest, q.raises = true := by
        rcases h with ⟨q, hq, hqr⟩
        rcases List.mem_cons.mp hq with h2 | h2
        · exact absurd (h2 ▸ hqr) hp
        · exact ⟨q, h2, hqr⟩
      have hgo : parsePartsGo (p :: rest) acc = parsePartsGo rest (updateFields acc p) := by
        simp [parsePartsGo, hp]
      rw [hgo]
      exact ih (updateFields acc p) hrest

theorem parsePartsGo_eq (parts : List NamePart) :
    ∀ acc : IssueFields, (∀ p ∈ parts, p.raises = false) →
      parsePartsGo parts acc = some
        { issue_name := parts.foldl
            (fun cur p => if strongQ p = true then nameVal p else cur) acc.issue_name
          date := parts.foldl
            (fun cur p => if dateQ p = true ∧ cur = [] then dateVal p else cur) acc.date
          number := parts.foldl
            (fun cur p => if numberQ p = true then numberVal p else cur) acc.number
          pages := parts.foldl
            (fun cur p => if pagesQ p = true then pagesVal p else cur) acc.pages } := by
  induction parts with
  | nil =>
    intro acc h
    rfl
  | cons p rest ih =>
    intro acc h
    have hp : p.raises = false := h p (List.mem_cons_self p rest)
    have hstep : parsePartsGo (p :: rest) acc = parsePartsGo rest (updateFields acc p) := by
      simp [parsePartsGo, hp]
    rw [hstep, ih (updateFields acc p) (fun q hq => h q (List.mem_cons_of_mem p hq))]
    congr 1
    congr 1
    · rw [List.foldl_cons, updateFields_name]
    · rw [List.foldl_cons, updateFields_date]
    · rw [List.foldl_cons, updateFields_number]
    · rw [List.foldl_cons, updateFields_pages]

/-- Claim C8 (amended): when no part access raises, each of the four
fields is extracted independently by its own matching rule — a field with
no matching part degrades to the empty string while the other fields are
still extracted; but when accessing any part raises, the one `try` block
of `parse_issue_name_parts` degrades the whole item to four empty
strings (the already-extracted fields included). In either case the
function returns normally instead of raising. -/
theorem parse_issue_name_parts_degradation :
    (∀ parts : List NamePart, (∃ p ∈ parts, p.raises = true) →
        parse_issue_name_parts parts = emptyFields) ∧
    (∀ parts : List NamePart, (∀ p ∈ parts, p.raises = false) →
        parse_issue_name_parts parts =
          ⟨nameOf parts, dateOf parts, numberOf parts, pagesOf parts⟩) := by
  constructor
  · intro parts h
    unfold parse_issue_name_parts
    rw [parsePartsGo_none parts emptyFields h]
  · intro parts h
    have hred : parse_issue_name_parts parts = IssueFields.mk
        (parts.foldl
          (fun cur p => if strongQ p = true then nameVal p else cur)
          emptyFields.issue_name)
        (parts.foldl
          (fun cur p => if dateQ p = true ∧ cur = [] then dateVal p else cur)
          emptyFields.date)
        (parts.foldl
          (fun cur p => if numberQ p = true then numberVal p else cur)
          emptyFields.number)
        (parts.foldl
          (fun cur p => if pagesQ p = true then pagesVal p else cur)
          emptyFields.pages) := by
      unfold parse_issue_name_parts
      rw [parsePartsGo_eq parts emptyFields h]
    rw [hred]
    congr 1
    · rw [foldl_lastMatch strongQ nameVal parts]
      unfold nameOf
      cases (parts.filter strongQ).getLast? <;> rfl
    · rw [foldl_firstMatch dateQ dateVal dateQ_val_ne parts]
      rw [if_pos (show emptyFields.date = [] from rfl)]
      unfold dateOf
      cases (parts.filter dateQ).head? <;> rfl
    · rw [foldl_lastMatch numberQ numberVal parts]
      unfold numberOf
      cases (parts.filter numberQ).getLast? <;> rfl
    · rw [foldl_lastMatch pagesQ pagesVal parts]
      unfold pagesOf
      cases (parts.filter pagesQ).getLast? <;> rfl

/-- Claim C8 counterexample: the first part is strong, non-failing and
carries the text `My Title`, yet because the second part raises, the
returned `issue_name` is the empty string — the field that did not
individually fail is not returned. -/
theorem parse_issue_name_parts_cex :
    parse_issue_name_parts cexParts = emptyFields ∧
    (cexParts.get ⟨0, by decide⟩).raises = false ∧
    (cexParts.get ⟨0, by decide⟩).isStrong = true ∧
    pyStrip ((cexParts.get ⟨0, by decide⟩).text) = "My Title".toList := by
  decide

/-- Witness for `parse_issue_name_parts_degradation`: an item whose parts
all extract cleanly yields the four per-field extractions. -/
theorem parse_issue_name_parts_degradation_witness :
    parse_issue_name_parts demoParts =
      ⟨nameOf demoParts, dateOf demoParts, numberOf demoParts, pagesOf demoParts⟩ :=
  parse_issue_name_parts_degradation.2 demoParts (by decide)

theorem downloadStep_pageIdx (pid : String → String) (issn : String)
    (s : CrawlState) (a : Article) :
    (downloadStep pid issn s a).pageIdx = s.pageIdx := by
  unfold downloadStep
  split_ifs <;> rfl

theorem mem_existing_downloadStep (pid : String → String) (issn : String)
    (s : CrawlState) (a : Article) (u : String) (h : u ∈ s.existing) :
    u ∈ (downloadStep pid issn s a).existing := by
  unfold downloadStep
  split_ifs <;> simp [mem_addKey, h]

theorem foldl_downloadStep_pageIdx (pid : String → String) (issn : String) :
    ∀ (l : List Article) (s : CrawlState),
      (l.foldl (downloadStep pid issn) s).pageIdx = s.pageIdx := by
  intro l
  induction l with
  | nil => intro s; rfl
  | cons a rest ih =>
    intro s
    rw [List.foldl_cons, ih, downloadStep_pageIdx]

theorem foldl_downloadStep_existing (pid : String → String) (issn : String) :
    ∀ (l : List Article) (s : CrawlState) (u : String), u ∈ s.existing →
      u ∈ (l.foldl (downloadStep pid issn) s).existing := by
  intro l
  induction l with
  | nil => intro s u h; exact h
  | cons a rest ih =>
    intro s u h
    rw [List.foldl_cons]
    exact ih _ u (mem_existing_downloadStep pid issn s a u h)

theorem downloadStep_dispatched (pid : String → String) (issn : String)
    (s : CrawlState) (a : Article) :
    ∀ e ∈ (downloadStep pid issn s a).dispatched,
      e ∈ s.dispatched ∨ e = (s.pageIdx, issueUuidOf pid a) := by
  intro e he
  by_cases hl : a.downloadLink = ""
  · have hd : (downloadStep pid issn s a).dispatched = s.dispatched := by
      simp [downloadStep, hl]
    rw [hd] at he
    exact Or.inl he
  · have hd : (downloadStep pid issn s a).dispatched =
        s.dispatched ++ [(s.pageIdx, issueUuidOf pid a)] := by
      by_cases hs : a.dlSucceeds = true <;>
        simp [downloadStep, recordOf, hl, hs]
    rw [hd] at he
    rcases List.mem_append.mp he with h | h
    · exact Or.inl h
    · exact Or.inr (List.mem_singleton.mp h)

theorem foldl_downloadStep_dispatched (pid : String → String) (issn : String) :
    ∀ (l : List Article) (s : CrawlState),
      ∀ e ∈ (l.foldl (downloadStep pid issn) s).dispatched,
        e ∈ s.dispatched ∨
          (e.1 = s.pageIdx ∧ ∃ a ∈ l, e.2 = issueUuidOf pid a) := by
  intro l
  induction l with
  | nil =>
    intro s e he
    exact Or.inl he
  | cons a rest ih =>
    intro s e he
    rw [List.foldl_cons] at he
    rcases ih (downloadStep pid issn s a) e he with h | ⟨h1, a2, ha2, h2⟩
    · rcases downloadStep_dispatched pid issn s a e h with h3 | h3
      · exact Or.inl h3
      · exact Or.inr ⟨by rw [h3], a, List.mem_cons_self a rest, by rw [h3]⟩
    · refine Or.inr ⟨?_, a2, List.mem_cons_of_mem a ha2, h2⟩
      rw [h1, downloadStep_pageIdx]

theorem processPage_pageIdx (pid : String → String) (issn : String)
    (s : CrawlState) (arts : List Article) :
    (processPage pid issn s arts).pageIdx = s.pageIdx + 1 := by
  unfold processPage
  rw [show ({ (arts.filter fun a => !decide (issueUuidOf pid a ∈ s.existing)).foldl
      (downloadStep pid issn) s with
      pageIdx := ((arts.filter fun a => !decide (issueUuidOf pid a ∈ s.existing)).foldl
        (downloadStep pid issn) s).pageIdx + 1 } : CrawlState).pageIdx =
      ((arts.filter fun a => !decide (issueUuidOf pid a ∈ s.existing)).foldl
        (downloadStep pid issn) s).pageIdx + 1 from rfl]
  rw [foldl_downloadStep_pageIdx]

theorem processPage_existing (pid : String → String) (issn : String)
    (s : CrawlState) (arts : List Article) (u : String) (h : u ∈ s.existing) :
    u ∈ (processPage pid issn s arts).existing :=
  foldl_downloadStep_existing pid issn _ s u h

theorem processPage_dispatched (pid : String → String) (issn : String)
    (s : CrawlState) (arts : List Article) :
    ∀ e ∈ (processPage pid issn s arts).dispatched,
      e ∈ s.dispatched ∨ (e.1 = s.pageIdx ∧ e.2 ∉ s.existing) := by
  intro e he
  have he2 : e ∈ ((arts.filter
      (fun a => !decide (issueUuidOf pid a ∈ s.existing))).foldl
      (downloadStep pid issn) s).dispatched := he
  rcases foldl_downloadStep_dispatched pid issn _ s e he2 with h | ⟨h1, a, ha, h2⟩
  · exact Or.inl h
  · refine Or.inr ⟨h1, ?_⟩
    rw [h2]
    have h3 := List.of_mem_filter ha
    simpa using h3

theorem runPages_tags (pid : String → String) :
    ∀ (pages : List (String × List Article)) (s : CrawlState),
      (∀ e ∈ s.dispatched, e.1 < s.pageIdx) →
      ∀ e ∈ (pages.foldl (fun s2 pg => processPage pid pg.1 s2 pg.2) s).dispatched,
        e.1 < (pages.foldl (fun s2 pg => processPage pid pg.1 s2 pg.2) s).pageIdx := by
  intro pages
  induction pages with
  | nil =>
    intro s h
    exact h
  | cons pg rest ih =>
    intro s h
    refine ih (processPage pid pg.1 s pg.2) ?_
    intro e he
    rw [processPage_pageIdx]
    rcases processPage_dispatched pid pg.1 s pg.2 e he with h2 | ⟨h2, _⟩
    · exact Nat.lt_succ_of_lt (h e h2)
    · rw [h2]
      exact Nat.lt_succ_self _

theorem runPages_existing (pid : String → String) :
    ∀ (pages : List (String × List Article)) (s : CrawlState) (u : String),
      u ∈ s.existing →
      u ∈ (pages.foldl (fun s2 pg => processPage pid pg.1 s2 pg.2) s).existing := by
  intro pages
  induction pages with
  | nil =>
    intro s u h
    exact h
  | cons pg rest ih =>
    intro s u h
    exact ih _ u (processPage_existing pid pg.1 s pg.2 u h)

theorem runPages_no_redispatch (pid : String → String) :
    ∀ (pages : List (String × List Article)) (s : CrawlState) (u : String),
      u ∈ s.existing →
      ∀ t : Nat,
        (t, u) ∈ (pages.foldl (fun s2 pg => processPage pid pg.1 s2 pg.2) s).dispatched →
        (t, u) ∈ s.dispatched := by
  intro pages
  induction pages with
  | nil =>
    intro s u _ t ht
    exact ht
  | cons pg rest ih =>
    intro s u hu t ht
    have h2 := ih (processPage pid pg.1 s pg.2) u
      (processPage_existing pid pg.1 s pg.2 u hu) t ht
    rcases processPage_dispatched pid pg.1 s pg.2 (t, u) h2 with h3 | ⟨_, hne⟩
    · exact h3
    · exact absurd hu hne

theorem runPages_pageIdx (pid : String → String) :
    ∀ (pages : List (String × List Article)) (s : CrawlState),
      (pages.foldl (fun s2 pg => processPage pid pg.1 s2 pg.2) s).pageIdx =
        s.pageIdx + pages.length := by
  intro pages
  induction pages with
  | nil =>
    intro s
    simp
  | cons pg rest ih =>
    intro s
    rw [List.foldl_cons, ih, processPage_pageIdx]
    simp
    omega

theorem succKeys_downloadStep (pid : String → String) (issn : String)
    (s : CrawlState) (a : Article)
    (h : ∀ r ∈ s.successRows, r.issue_uuid ∈ s.existing) :
    ∀ r ∈ (downloadStep pid issn s a).successRows,
      r.issue_uuid ∈ (downloadStep pid issn s a).existing := by
  intro r hr
  by_cases hcond : a.downloadLink = "" ∨ a.dlSucceeds = true
  · have hsucc : (downloadStep pid issn s a).successRows =
        s.successRows ++ [recordOf pid issn a] := by
      simp [downloadStep, hcond]
    have hex : (downloadStep pid issn s a).existing =
        addKey (issueUuidOf pid a) s.existing := by
      simp [downloadStep, hcond, recordOf]
    rw [hex]
    rw [hsucc] at hr
    rcases List.mem_append.mp hr with h2 | h2
    · exact mem_addKey.mpr (Or.inl (h r h2))
    · rw [List.mem_singleton.mp h2]
      exact mem_addKey.mpr (Or.inr rfl)
  · have hsucc : (downloadStep pid issn s a).successRows = s.successRows := by
      simp [downloadStep, hcond]
    have hex : (downloadStep pid issn s a).existing = s.existing := by
      simp [downloadStep, hcond]
    rw [hex]
    rw [hsucc] at hr
    exact h r hr

theorem succKeys_foldl (pid : String → String) (issn : String) :
    ∀ (l : List Article) (s : CrawlState),
      (∀ r ∈ s.successRows, r.issue_uuid ∈ s.existing) →
      ∀ r ∈ (l.foldl (downloadStep pid issn) s).successRows,
        r.issue_uuid ∈ (l.foldl (downloadStep pid issn) s).existing := by
  intro l
  induction l with
  | nil =>
    intro s h
    exact h
  | cons a rest ih =>
    intro s h
    exact ih _ (succKeys_downloadStep pid issn s a h)

theorem succKeys_runPages (pid : String → String) :
    ∀ (pages : List (String × List Article)) (s : CrawlState),
      (∀ r ∈ s.successRows, r.issue_uuid ∈ s.existing) →
      ∀ r ∈ (pages.foldl (fun s2 pg => processPage pid pg.1 s2 pg.2) s).successRows,
        r.issue_uuid ∈
          (pages.foldl (fun s2 pg => processPage pid pg.1 s2 pg.2) s).existing := by
  intro pages
  induction pages with
  | nil =>
    intro s h
    exact h
  | cons pg rest ih =>
    intro s h
    exact ih _ (succKeys_foldl pid pg.1 _ s h)

/-- Claim C1: during one crawl run, an issue candidate whose uuid is
already in the in-memory key set is skipped with no effect at all (no
download dispatch, no row in either store); every row of the success
store has its uuid in the key set at every point of the run; and once a
uuid is in the key set after the first `i + 1` pages, no download of that
uuid is ever dispatched on any later page `j > i` of the same run. -/
theorem scrape_issues_dedup (pid : String → String) (init : List String)
    (pages : List (String × List Article)) :
    (∀ (s : CrawlState) (issn : String) (a : Article) (rest : List Article),
        issueUuidOf pid a ∈ s.existing →
        processPage pid issn s (a :: rest) = processPage pid issn s rest) ∧
    (∀ n : Nat, ∀ r ∈ (runCrawl pid init (pages.take n)).successRows,
        r.issue_uuid ∈ (runCrawl pid init (pages.take n)).existing) ∧
    (∀ i j : Nat, ∀ u : String, i < j →
        u ∈ (runCrawl pid init (pages.take (i + 1))).existing →
        (j, u) ∉ (runCrawl pid init pages).dispatched) := by
  refine ⟨?_, ?_, ?_⟩
  · intro s issn a rest h
    unfold processPage
    have hfil : (a :: rest).filter
        (fun a2 => !decide (issueUuidOf pid a2 ∈ s.existing)) =
        rest.filter (fun a2 => !decide (issueUuidOf pid a2 ∈ s.existing)) := by
      rw [List.filter_cons]
      simp [h]
    rw [hfil]
  · intro n
    unfold runCrawl
    refine succKeys_runPages pid (pages.take n) (initialCrawlState init) ?_
    intro r hr
    simp [initialCrawlState] at hr
  · intro i j u hij hu hmem
    unfold runCrawl at hmem
    rw [← List.take_append_drop (i + 1) pages, List.foldl_append] at hmem
    have h2 := runPages_no_redispatch pid (pages.drop (i + 1)) _ u
      (by unfold runCrawl at hu; exact hu) j hmem
    have htag := runPages_tags pid (pages.take (i + 1)) (initialCrawlState init)
      (by intro e he; simp [initialCrawlState] at he) (j, u) h2
    have hidx : ((pages.take (i + 1)).foldl
        (fun s2 pg => processPage pid pg.1 s2 pg.2)
        (initialCrawlState init)).pageIdx = (pages.take (i + 1)).length := by
      rw [runPages_pageIdx]
      simp [initialCrawlState]
    rw [hidx] at htag
    have hlen : (pages.take (i + 1)).length ≤ i + 1 := by
      rw [List.length_take]
      exact Nat.min_le_left _ _
    simp only at htag
    omega

/-- Witness for `scrape_issues_dedup`: in a concrete run whose first page
successfully downloads uuid `u1`, the second page's candidate with the
same uuid is never dispatched. -/
theorem scrape_issues_dedup_witness :
    (1, "u1") ∉ (runCrawl pidStub []
      [("0001", [⟨"n1", "d", "", "", "L", "u1", true⟩]),
        ("0001", [⟨"n1", "d", "", "", "L", "u1", true⟩])]).dispatched :=
  (scrape_issues_dedup pidStub []
      [("0001", [⟨"n1", "d", "", "", "L", "u1", true⟩]),
        ("0001", [⟨"n1", "d", "", "", "L", "u1", true⟩])]).2.2
    0 1 "u1" (by decide) (by decide)

/-- Claim C10: an article discovered with no download link is processed
as a success without any download dispatch: assuming its fresh uuid is
not already in the key set, its row lands in the success store with the
freshly generated uuid and an empty issue link, the uuid joins the key
set, and the failure store and dispatch log are untouched. -/
theorem process_no_link_success (pid : String → String) (issn : String)
    (s : CrawlState) (a : Article)
    (hlink : a.downloadLink = "") (hfresh : a.freshUuid ∉ s.existing) :
    processPage pid issn s [a] =
      { s with pageIdx := s.pageIdx + 1,
               existing := s.existing ++ [a.freshUuid],
               successRows := s.successRows ++
                 [{ publication_issn := issn, issue_uuid := a.freshUuid,
                    issue_name := a.issue_name, date := a.date,
                    number := a.number, number_of_pages := a.pages,
                    issue_link := "" }] } := by
  have huuid : issueUuidOf pid a = a.freshUuid := by
    unfold issueUuidOf
    rw [if_neg (fun h => h.1 hlink)]
  have hfilter : [a].filter (fun a2 => !decide (issueUuidOf pid a2 ∈ s.existing)) = [a] := by
    simp [huuid, hfresh]
  unfold processPage
  simp [hfilter, downloadStep, recordOf, issueLinkOf, issueUuidOf, addKey,
    hlink, hfresh]

/-- Witness for `process_no_link_success`: a concrete linkless article is
recorded as a success row with its fresh uuid and empty link. -/
theorem process_no_link_success_witness :
    processPage pidStub "0001" (initialCrawlState [])
        [⟨"name", "d", "n", "p", "", "fresh-1", false⟩] =
      { initialCrawlState [] with
          pageIdx := 1,
          existing := ["fresh-1"],
          successRows :=
            [{ publication_issn := "0001", issue_uuid := "fresh-1",
               issue_name := "name", date := "d", number := "n",
               number_of_pages := "p", issue_link := "" }] } :=
  process_no_link_success pidStub "0001" (initialCrawlState [])
    ⟨"name", "d", "n", "p", "", "fresh-1", false⟩ rfl (by decide)
